import Mathlib

/-!
# Verification of the multiplayer-racer relay server (`src/server/app.py`)

A shallow embedding of the Socket.IO room/session relay: the global
`game_rooms` table, the event handlers (`create_room`, `join_game`,
`start_game`, `player_update`, `player_control_update`, `disconnect`,
`reset_player_position`, `update_player_name`) and the messages they emit.

Conventions of the embedding:
* Session ids and room codes are `String`s; numbers in message payloads
  are rationals (`ℚ`), standing for the Python numbers involved.
* A Python `dict` read with `data.get(k)` becomes an `Option` field;
  `data.get(k, d)` becomes `Option.getD`.
* Python's mutable dictionaries (`game_rooms`, a room's `players`)
  become insertion-ordered association lists; assignment `d[k] = v`
  becomes `alistSet`, which updates the first binding in place or
  appends a fresh one, mirroring dict key-order semantics.
* `emit(event, payload)` / `emit(event, payload, room=...)` /
  `emit(event, payload, to=sid)` become an `Emit` record accumulated in
  the handler's result; handlers return the new table plus the list of
  emits, in program order.
* Python truthiness of the fields checked by
  `if not all([player_sid, room_code, controls, timestamp])` is modelled
  by `truthy*` predicates: `None` and `0` and `""` and `{}` are falsy.
* The field named `rotation` in the source is called `rot` here.
* Randomness (`random.choices` in `generate_room_code`,
  `random.randint` for car colors) is passed in explicitly: a stream
  `Nat → Fin 26` of letter choices, and a `Nat` color sample.
-/

namespace Racer

/-- Lifecycle phase of a room: the `game_state` field,
`'waiting' | 'racing' | 'finished'`. -/
inductive GameState where
  | waiting
  | racing
  | finished
deriving DecidableEq, Repr

/-- The `controls` sub-dictionary of a `player_control_update` message.
Only the three recognised keys are modelled; a key maps to `none` when
absent from the dict. -/
structure Controls where
  steering : Option ℚ
  acceleration : Option ℚ
  braking : Option ℚ
deriving DecidableEq, Repr

/-- The `controls` value stored per player at join time:
`{'steering': 0, 'acceleration': 0, 'braking': 0}`. -/
structure StoredControls where
  steering : ℚ
  acceleration : ℚ
  braking : ℚ
deriving DecidableEq, Repr

/-- A player record, as built in `on_join_game`. -/
structure Player where
  id : Nat
  name : String
  car_color : String
  position : Option (List ℚ)
  rot : Option (List ℚ)
  velocity : Option (List ℚ)
  controls : StoredControls
deriving DecidableEq, Repr

/-- A room record of `game_rooms`. -/
structure Room where
  host_sid : String
  players : List (String × Player)
  game_state : GameState
deriving DecidableEq, Repr

/-- The global `game_rooms` dict: room code → room, in insertion order. -/
abbrev RoomTable := List (String × Room)

/-- First value bound to `k`, i.e. Python `d[k]` / `d.get(k)`. -/
def alistFind (k : String) : List (String × α) → Option α
  | [] => none
  | (k', v) :: rest => if k' = k then some v else alistFind k rest

/-- Python `k in d`. -/
def alistMem (k : String) (l : List (String × α)) : Prop :=
  (alistFind k l).isSome

instance (k : String) (l : List (String × α)) : Decidable (alistMem k l) := by
  unfold alistMem; infer_instance

/-- Python `d[k] = v`: replace the first binding of `k`, or append. -/
def alistSet (k : String) (v : α) : List (String × α) → List (String × α)
  | [] => [(k, v)]
  | (k', v') :: rest =>
      if k' = k then (k, v) :: rest else (k', v') :: alistSet k v rest

/-- Python `del d[k]`: drop the first binding of `k`. -/
def alistDel (k : String) : List (String × α) → List (String × α)
  | [] => []
  | (k', v') :: rest =>
      if k' = k then rest else (k', v') :: alistDel k rest

/-- Destination of an outbound `emit`. -/
inductive Target where
  /-- plain `emit(...)`: goes back to the connection whose event is
  being handled. -/
  | sender
  /-- Form `emit(..., room=code)` / `emit(..., to=code)` with a room
  code: broadcast on the room's channel. -/
  | channel (code : String)
  /-- Form `emit(..., to=sid)` / `emit(..., room=sid)` with a session
  id: unicast to one connection. -/
  | sid (s : String)
deriving DecidableEq, Repr

/-- Payloads of the outbound events the server emits. -/
inductive Payload where
  | room_created (room_code : String)
  | err (message : String)
  | game_joined (player_id : Nat) (name : String) (car_color : String)
  | player_joined (id : Nat) (name : String) (car_color : String)
      (position rot velocity : List ℚ)
  | game_started
  | player_position_update (player_id : Nat)
      (position rot velocity : Option (List ℚ))
  | player_controls_update (player_id : ℚ)
      (steering acceleration braking : ℚ) (timestamp : ℚ)
  | host_disconnected
  | player_left (player_id : Nat) (player_name : String)
  | position_reset (position rot : Option (List ℚ))
  | name_updated (success : Bool) (name : Option String)
      (message : Option String)
  | player_name_updated (player_id : Nat) (name : String)
deriving DecidableEq, Repr

/-- One outbound Socket.IO `emit`. -/
structure Emit where
  event : String
  payload : Payload
  target : Target
deriving DecidableEq, Repr

/-- A handler's observable result: the new `game_rooms` table and the
emits it produced, in program order. -/
abbrev HResult := RoomTable × List Emit

/-! ## Python truthiness, as used by `if not all([...])` -/

/-- Truthiness of an optional number: `None` and `0` are falsy. -/
def truthyNum : Option ℚ → Bool
  | none => false
  | some v => v ≠ 0

/-- Truthiness of an optional string: `None` and `''` are falsy. -/
def truthyStr : Option String → Bool
  | none => false
  | some v => v ≠ ""

/-- Truthiness of the `controls` dict: `{}` is falsy, any present key
makes it truthy. -/
def truthyControls (c : Controls) : Bool :=
  c.steering.isSome || c.acceleration.isSome || c.braking.isSome

/-- The empty `controls` dict, the `data.get('controls', {})` default. -/
def Controls.empty : Controls := ⟨none, none, none⟩

/-! ## `player_control_update` -/

/-- Inbound `player_control_update` message, fields read with
`data.get`. -/
structure ControlMsg where
  player_id : Option ℚ
  room_code : Option String
  controls : Option Controls
  timestamp : Option ℚ
deriving DecidableEq, Repr

/-- Handler `player_control_update(data)` (app.py:206-252): validate
the four required fields by truthiness, clamp the three control values,
broadcast the validated update on the room's channel, and only then
check (for a log message only) whether the room exists. -/
def player_control_update (data : ControlMsg) (rooms : RoomTable) :
    HResult :=
  let player_sid := data.player_id
  let room_code := data.room_code
  let controls := data.controls.getD Controls.empty
  let timestamp := data.timestamp
  if truthyNum player_sid && truthyStr room_code &&
      truthyControls controls && truthyNum timestamp then
    let steering := max (-1 : ℚ) (min 1 (controls.steering.getD 0))
    let acceleration := max (0 : ℚ) (min 1 (controls.acceleration.getD 0))
    let braking := max (0 : ℚ) (min 1 (controls.braking.getD 0))
    (rooms,
      [⟨"player_controls_update",
        .player_controls_update (player_sid.getD 0) steering acceleration
          braking (timestamp.getD 0),
        .channel (room_code.getD "")⟩])
  else
    (rooms, [])

/-! ## `create_room` and the room code generator -/

/-- One letter drawn by `random.choices(string.ascii_uppercase)`. -/
def codeChar (f : Fin 26) : Char := Char.ofNat (65 + f.val)

/-- Function `generate_room_code(length=4)` (app.py:112-114): the code built by
the `attempt`-th call, drawing four letters from the random stream
`letters`. -/
def generate_room_code (letters : Nat → Fin 26) (attempt : Nat) : String :=
  String.mk ((List.range 4).map fun j => codeChar (letters (4 * attempt + j)))

/-- The `while room_code in game_rooms: room_code = generate_room_code()`
retry loop of `create_room` (app.py:190-194): the first generated code
not already a key of the live table. The loop is unbounded in the
source; the hypothesis `h` states that it terminates on this random
stream. -/
def fresh_code (letters : Nat → Fin 26) (rooms : RoomTable)
    (h : ∃ i, ¬ alistMem (generate_room_code letters i) rooms) : String :=
  generate_room_code letters (Nat.find h)

/-- Handler `create_room(data)` (app.py:186-204): generate a unique
code, insert a fresh room in `waiting` phase with the sender as host
and an empty roster, and reply `room_created`. -/
def create_room (letters : Nat → Fin 26) (host_sid : String)
    (rooms : RoomTable)
    (h : ∃ i, ¬ alistMem (generate_room_code letters i) rooms) : HResult :=
  let room_code := fresh_code letters rooms h
  (alistSet room_code ⟨host_sid, [], .waiting⟩ rooms,
    [⟨"room_created", .room_created room_code, .sender⟩])

/-! ## `join_game` -/

/-- Inbound `join_game` message. -/
structure JoinMsg where
  player_name : Option String
  room_code : Option String
deriving DecidableEq, Repr

/-- Python `str.upper()`, rendered char-wise (`String.toUpper` is
extensionally the same but is defined by well-founded recursion, which
blocks evaluation in proofs). -/
def strUpper (s : String) : String := String.mk (s.data.map Char.toUpper)

/-- The f-string `f"#{n:06x}"`: lowercase hex, zero-padded to six
digits, with a leading `#`. -/
def hexColor (n : Nat) : String :=
  let ds := Nat.toDigits 16 n
  "#" ++ String.mk (List.replicate (6 - ds.length) '0' ++ ds)

/-- The player dict literal built by `on_join_game` (app.py:282-294)
for a roster currently holding `n` players: id `n + 1`, the default
starting pose, zeroed controls. -/
def joinedPlayer (colorRand : Fin 16777216) (player_name : String)
    (n : Nat) : Player :=
  ⟨n + 1, player_name, hexColor colorRand.val, some [0, 1/2, 0],
    some [0, 0, 0], some [0, 0, 0], ⟨0, 0, 0⟩⟩

/-- Handler `on_join_game(data)` (app.py:256-316). `colorRand` is the
`random.randint(0, 0xFFFFFF)` sample for the car color. The roster
insertion `room['players'][request.sid] = {...}` is dict assignment,
so `alistSet`. -/
def on_join_game (colorRand : Fin 16777216) (sender : String)
    (data : JoinMsg) (rooms : RoomTable) : HResult :=
  let player_name := data.player_name.getD "Player"
  let room_code := strUpper (data.room_code.getD "")
  if room_code = "" then
    (rooms, [⟨"error", .err "Invalid room code", .sender⟩])
  else
    match alistFind room_code rooms with
    | none => (rooms, [⟨"error", .err "Invalid room code", .sender⟩])
    | some room =>
      if room.game_state ≠ .waiting then
        (rooms, [⟨"error", .err "Game already in progress", .sender⟩])
      else
        let player_id := room.players.length + 1
        let car_color := hexColor colorRand.val
        let p : Player := joinedPlayer colorRand player_name room.players.length
        (alistSet room_code
            {room with players := alistSet sender p room.players} rooms,
          [⟨"game_joined", .game_joined player_id player_name car_color,
            .sender⟩,
           ⟨"player_joined",
            .player_joined player_id player_name car_color
              [0, 1/2, 0] [0, 0, 0] [0, 0, 0],
            .sid room.host_sid⟩])

/-! ## `start_game` -/

/-- Inbound `start_game` message. -/
structure StartMsg where
  room_code : Option String
deriving DecidableEq, Repr

/-- Handler `start_game(data)` (app.py:318-334): host-only; sets the
room's `game_state` to `racing` and broadcasts `game_started` on the
room's channel. A missing `room_code` (`None`) is never a key of
`game_rooms`, hence `Room not found`. -/
def start_game (sender : String) (data : StartMsg) (rooms : RoomTable) :
    HResult :=
  match data.room_code with
  | none => (rooms, [⟨"error", .err "Room not found", .sender⟩])
  | some code =>
    match alistFind code rooms with
    | none => (rooms, [⟨"error", .err "Room not found", .sender⟩])
    | some room =>
      if room.host_sid ≠ sender then
        (rooms,
          [⟨"error", .err "Only the host can start the game", .sender⟩])
      else
        (alistSet code {room with game_state := .racing} rooms,
          [⟨"game_started", .game_started, .channel code⟩])

/-! ## `player_update` -/

/-- Inbound `player_update` message; the three vectors are stored
as-is, possibly `None`. -/
structure UpdateMsg where
  room_code : Option String
  position : Option (List ℚ)
  rot : Option (List ℚ)
  velocity : Option (List ℚ)
deriving DecidableEq, Repr

/-- Handler `player_update(data)` (app.py:336-362): silently dropped
unless the room exists, the sender is in its roster and the phase is
`racing`; otherwise stores the vectors and unicasts
`player_position_update` to the host. -/
def player_update (sender : String) (data : UpdateMsg)
    (rooms : RoomTable) : HResult :=
  match data.room_code with
  | none => (rooms, [])
  | some code =>
    match alistFind code rooms with
    | none => (rooms, [])
    | some room =>
      match alistFind sender room.players with
      | none => (rooms, [])
      | some pl =>
        if room.game_state ≠ .racing then (rooms, [])
        else
          let pl' := {pl with position := data.position, rot := data.rot,
                              velocity := data.velocity}
          (alistSet code
              {room with players := alistSet sender pl' room.players} rooms,
            [⟨"player_position_update",
              .player_position_update pl.id data.position data.rot
                data.velocity,
              .sid room.host_sid⟩])

/-! ## `disconnect` -/

/-- The `for room_code, room_data in list(game_rooms.items())` loop of
`handle_disconnect` (app.py:370-390): per room in order, first the
host check (delete the room, broadcast `host_disconnected`), then the
player check (delete just the player, notify the host); `break` on the
first match. -/
def disconnect_scan (client : String) : RoomTable → HResult
  | [] => ([], [])
  | (code, room) :: rest =>
    if room.host_sid = client then
      (rest, [⟨"host_disconnected", .host_disconnected, .channel code⟩])
    else
      match alistFind client room.players with
      | some pl =>
        ((code, {room with players := alistDel client room.players}) :: rest,
          [⟨"player_left", .player_left pl.id pl.name, .sid room.host_sid⟩])
      | none =>
        let r := disconnect_scan client rest
        ((code, room) :: r.1, r.2)

/-- Handler `handle_disconnect()` (app.py:364-390). -/
def handle_disconnect (client : String) (rooms : RoomTable) : HResult :=
  disconnect_scan client rooms

/-! ## `reset_player_position` -/

/-- Inbound `reset_player_position` message. -/
structure ResetMsg where
  room_code : Option String
  player_id : Option Nat
  position : Option (List ℚ)
  rot : Option (List ℚ)
deriving DecidableEq, Repr

/-- The in-place pose update of `handle_reset_position`
(app.py:410-412): new position and rotation, velocity zeroed. -/
def resetPose (pl : Player) (pos rot : Option (List ℚ)) : Player :=
  {pl with position := pos, rot := rot, velocity := some [0, 0, 0]}

/-- The `for sid, player_data in ... players.items()` loop of
`handle_reset_position` (app.py:405-429): first player whose `id`
equals the message's `player_id` gets the new pose, zeroed velocity,
and a `position_reset` unicast; the host gets a
`player_position_update`; `break` afterwards. A `player_id` of `None`
equals no stored integer id. -/
def reset_scan (pid : Option Nat) (pos rot : Option (List ℚ))
    (host : String) : List (String × Player) →
    List (String × Player) × List Emit
  | [] => ([], [])
  | (sid, pl) :: rest =>
    if some pl.id = pid then
      ((sid, resetPose pl pos rot) :: rest,
        [⟨"position_reset", .position_reset pos rot, .sid sid⟩,
         ⟨"player_position_update",
          .player_position_update pl.id pos rot (some [0, 0, 0]),
          .sid host⟩])
    else
      let r := reset_scan pid pos rot host rest
      ((sid, pl) :: r.1, r.2)

/-- Handler `handle_reset_position(data)` (app.py:392-429): on a
missing or unknown room code it only logs and returns — no emit. When
the room exists the roster scan runs; a no-match scan leaves the
roster equal and emits nothing. (The source mutates the player dict in
place; rebuilding the table with `alistSet` is the functional
rendering of that in-place update.) -/
def handle_reset_position (data : ResetMsg) (rooms : RoomTable) :
    HResult :=
  match data.room_code with
  | none => (rooms, [])
  | some code =>
    if code = "" then (rooms, [])
    else
      match alistFind code rooms with
      | none => (rooms, [])
      | some room =>
        let r := reset_scan data.player_id data.position data.rot
          room.host_sid room.players
        (alistSet code {room with players := r.1} rooms, r.2)

/-! ## `update_player_name` -/

/-- Inbound `update_player_name` message. -/
structure NameMsg where
  name : Option String
deriving DecidableEq, Repr

/-- The `for room_code, room_data in game_rooms.items()` loop of
`update_player_name` (app.py:442-461): first room whose roster holds
the sender gets the renamed player; `none` when the sender is in no
room. -/
def rename_scan (sender new_name : String) : RoomTable →
    Option (RoomTable × List Emit)
  | [] => none
  | (code, room) :: rest =>
    match alistFind sender room.players with
    | some pl =>
      let pl' := {pl with name := new_name}
      some
        ((code, {room with players := alistSet sender pl' room.players}) :: rest,
          [⟨"name_updated", .name_updated true (some new_name) none,
            .sender⟩,
           ⟨"player_name_updated", .player_name_updated pl.id new_name,
            .sid room.host_sid⟩])
    | none =>
      (rename_scan sender new_name rest).map
        fun r => ((code, room) :: r.1, r.2)

/-- Handler `update_player_name(data)` (app.py:431-465). Python's
`str.strip` is rendered as `String.trim`. -/
def update_player_name (sender : String) (data : NameMsg)
    (rooms : RoomTable) : HResult :=
  let new_name := (data.name.getD "").trim
  if new_name = "" then
    (rooms,
      [⟨"name_updated", .name_updated false none (some "Invalid name"),
        .sender⟩])
  else
    match rename_scan sender new_name rooms with
    | some r => r
    | none =>
      (rooms,
        [⟨"name_updated",
          .name_updated false none (some "Player not in a room"),
          .sender⟩])

/-! ## Derived scenarios used by the testable properties -/

/-- A sequence of `join_game` events against one room code: each entry
is the color sample, the joining connection's sid and the requested
player name. Returns the table after all joins. -/
def joinSeq (code : String) (rooms : RoomTable) :
    List (Fin 16777216 × String × String) → RoomTable
  | [] => rooms
  | (cr, sid, nm) :: rest =>
    joinSeq code (on_join_game cr sid ⟨some nm, some code⟩ rooms).1 rest

/-- A 4-character uppercase A-Z string, the shape `generate_room_code`
contracts to produce. -/
def isValidRoomCode (s : String) : Prop :=
  s.length = 4 ∧ ∀ c ∈ s.data, 65 ≤ c.toNat ∧ c.toNat ≤ 90

instance (s : String) : Decidable (isValidRoomCode s) := by
  unfold isValidRoomCode; infer_instance

/-- A sequence of `create_room` calls with no intervening destruction,
recording the returned codes: each step runs `create_room` on the
table left by the previous one. -/
inductive CreateTrace : RoomTable → List String → RoomTable → Prop where
  | nil (rooms : RoomTable) : CreateTrace rooms [] rooms
  | cons (rooms final : RoomTable) (letters : Nat → Fin 26)
      (host : String) (codes : List String)
      (h : ∃ i, ¬ alistMem (generate_room_code letters i) rooms) :
      CreateTrace (create_room letters host rooms h).1 codes final →
      CreateTrace rooms (fresh_code letters rooms h :: codes) final

/-- One invocation of any of the server's Socket.IO handlers, with
arbitrary inputs, observed on the room table. -/
inductive Step : RoomTable → RoomTable → Prop where
  | create (letters : Nat → Fin 26) (host : String) (rooms : RoomTable)
      (h : ∃ i, ¬ alistMem (generate_room_code letters i) rooms) :
      Step rooms (create_room letters host rooms h).1
  | control (d : ControlMsg) (rooms : RoomTable) :
      Step rooms (player_control_update d rooms).1
  | join (colorRand : Fin 16777216) (sender : String) (d : JoinMsg)
      (rooms : RoomTable) :
      Step rooms (on_join_game colorRand sender d rooms).1
  | start (sender : String) (d : StartMsg) (rooms : RoomTable) :
      Step rooms (start_game sender d rooms).1
  | update (sender : String) (d : UpdateMsg) (rooms : RoomTable) :
      Step rooms (player_update sender d rooms).1
  | dropConn (client : String) (rooms : RoomTable) :
      Step rooms (handle_disconnect client rooms).1
  | reset (d : ResetMsg) (rooms : RoomTable) :
      Step rooms (handle_reset_position d rooms).1
  | rename (sender : String) (d : NameMsg) (rooms : RoomTable) :
      Step rooms (update_player_name sender d rooms).1

/-- The letter stream used by the C1 witness: attempt `i` yields the
letter `i mod 26`, so attempt 0 gives `"AAAA"` and attempt 1 `"BBBB"`. -/
def lettersW (i : Nat) : Fin 26 := ⟨i / 4 % 26, Nat.mod_lt _ (by norm_num)⟩

/-- Pairwise-distinct keys in a table — true of the live `game_rooms`
dict by construction, and an invariant of every reachable table. -/
def NodupKeys (s : RoomTable) : Prop := (s.map Prod.fst).Nodup

/-- Room tables reachable from the initial empty `game_rooms` by any
sequence of handler invocations. -/
inductive Reachable : RoomTable → Prop where
  | init : Reachable []
  | step {s s' : RoomTable} : Reachable s → Step s s' → Reachable s'

/-! ## Association-list lemmas -/

theorem alistFind_alistSet (q k : String) (v : α) (l : List (String × α)) :
    alistFind q (alistSet k v l) =
      if q = k then some v else alistFind q l := by
  induction l with
  | nil =>
    simp only [alistSet, alistFind]
    by_cases h : q = k
    · subst h; simp
    · rw [if_neg fun hk => h hk.symm, if_neg h]
  | cons hd tl ih =>
    obtain ⟨k', v'⟩ := hd
    by_cases hk : k' = k
    · subst hk
      simp only [alistSet, if_pos rfl, alistFind]
      by_cases hq : q = k'
      · subst hq; simp
      · rw [if_neg fun h => hq h.symm, if_neg hq,
          if_neg fun h => hq h.symm]
    · simp only [alistSet, if_neg hk, alistFind, ih]
      by_cases hq : k' = q
      · subst hq
        rw [if_pos rfl, if_neg hk, if_pos rfl]
      · rw [if_neg hq, if_neg hq]

theorem alistSet_self {k : String} {v : α} {l : List (String × α)}
    (h : alistFind k l = some v) : alistSet k v l = l := by
  induction l with
  | nil => simp [alistFind] at h
  | cons hd tl ih =>
    obtain ⟨k', v'⟩ := hd
    by_cases hk : k' = k
    · subst hk
      simp [alistFind] at h
      simp [alistSet, h]
    · simp [alistFind, hk] at h
      simp [alistSet, hk, ih h]

theorem alistMem_of_find {k : String} {v : α} {l : List (String × α)}
    (h : alistFind k l = some v) : alistMem k l := by
  simp [alistMem, h]

theorem alistFind_eq_none_of_not_mem {k : String} {l : List (String × α)}
    (h : ¬ alistMem k l) : alistFind k l = none := by
  simp [alistMem, Option.isSome_iff_exists] at h
  cases hf : alistFind k l with
  | none => rfl
  | some v => exact absurd hf (h v)

theorem alistSet_of_not_mem {k : String} {v : α} {l : List (String × α)}
    (h : ¬ alistMem k l) : alistSet k v l = l ++ [(k, v)] := by
  induction l with
  | nil => simp [alistSet]
  | cons hd tl ih =>
    obtain ⟨k', v'⟩ := hd
    by_cases hk : k' = k
    · exact absurd (by simp [alistMem, alistFind, hk]) h
    · have : ¬ alistMem k tl := by
        intro hm
        exact h (by simpa [alistMem, alistFind, hk] using hm)
      simp [alistSet, hk, ih this]

/-! ## Claims C4, C9, C10: `player_control_update` -/

/-- C4. A `player_control_update` carrying all required fields
(truthy, per the source's `all([...])` check) is forwarded as a
`player_controls_update` whose steering lies in `[-1, 1]` and whose
acceleration and braking lie in `[0, 1]`; an input steering of `5` is
forwarded as `1`, a braking of `-2` as `0`. -/
theorem control_update_clamped (d : ControlMsg) (rooms : RoomTable)
    (pid ts : ℚ) (rc : String) (c : Controls)
    (hp : d.player_id = some pid) (hr : d.room_code = some rc)
    (hc : d.controls = some c) (ht : d.timestamp = some ts)
    (htr : truthyNum (some pid) && truthyStr (some rc) &&
      truthyControls c && truthyNum (some ts)) :
    ∃ st ac br : ℚ,
      player_control_update d rooms =
        (rooms,
          [⟨"player_controls_update",
            .player_controls_update pid st ac br ts, .channel rc⟩]) ∧
      -1 ≤ st ∧ st ≤ 1 ∧ 0 ≤ ac ∧ ac ≤ 1 ∧ 0 ≤ br ∧ br ≤ 1 ∧
      (c.steering = some 5 → st = 1) ∧
      (c.braking = some (-2) → br = 0) := by
  refine ⟨max (-1) (min 1 (c.steering.getD 0)),
    max 0 (min 1 (c.acceleration.getD 0)),
    max 0 (min 1 (c.braking.getD 0)), ?_, le_max_left _ _,
    max_le (by norm_num) (min_le_left _ _), le_max_left _ _,
    max_le zero_le_one (min_le_left _ _), le_max_left _ _,
    max_le zero_le_one (min_le_left _ _), ?_, ?_⟩
  · unfold player_control_update
    rw [hp, hr, hc, ht]
    simp only [Option.getD_some, htr, if_true]
  · intro hst
    rw [hst]
    norm_num
  · intro hbr
    rw [hbr]
    norm_num

/-- Witness for C4 at a concrete message with steering `5` and braking
`-2`. -/
theorem control_update_clamped_witness :
    ∃ st ac br : ℚ,
      player_control_update
          ⟨some 7, some "ABCD", some ⟨some 5, some (1/2), some (-2)⟩,
            some 3⟩ [] =
        ([],
          [⟨"player_controls_update",
            .player_controls_update 7 st ac br 3, .channel "ABCD"⟩]) ∧
      -1 ≤ st ∧ st ≤ 1 ∧ 0 ≤ ac ∧ ac ≤ 1 ∧ 0 ≤ br ∧ br ≤ 1 ∧
      ((⟨some 5, some (1/2), some (-2)⟩ : Controls).steering = some 5 →
        st = 1) ∧
      ((⟨some 5, some (1/2), some (-2)⟩ : Controls).braking = some (-2) →
        br = 0) :=
  control_update_clamped _ _ 7 3 "ABCD" _ rfl rfl rfl rfl (by decide)

/-- C9. With all four required fields truthy, the validated update
is broadcast on the channel named by the message's `room_code` even
when that code has no room in the live table, or its room is still in
the `waiting` phase, and the room table is returned unchanged: the
broadcast precedes the room-existence check, which only logs. -/
theorem control_update_broadcast_before_room_check (d : ControlMsg)
    (rooms : RoomTable) (pid ts : ℚ) (rc : String) (c : Controls)
    (hp : d.player_id = some pid) (hr : d.room_code = some rc)
    (hc : d.controls = some c) (ht : d.timestamp = some ts)
    (htr : truthyNum (some pid) && truthyStr (some rc) &&
      truthyControls c && truthyNum (some ts))
    (_hroom : alistFind rc rooms = none ∨
      ∀ room : Room, alistFind rc rooms = some room →
        room.game_state = .waiting) :
    ∃ p : Payload,
      player_control_update d rooms =
        (rooms, [⟨"player_controls_update", p, .channel rc⟩]) := by
  refine ⟨.player_controls_update pid (max (-1) (min 1 (c.steering.getD 0)))
    (max 0 (min 1 (c.acceleration.getD 0)))
    (max 0 (min 1 (c.braking.getD 0))) ts, ?_⟩
  unfold player_control_update
  rw [hp, hr, hc, ht]
  simp only [Option.getD_some, htr, if_true]

/-- Witness for C9 at a concrete message whose room code is absent
from the (empty) table. -/
theorem control_update_broadcast_witness :
    ∃ p : Payload,
      player_control_update
          ⟨some 1, some "ZZZZ", some ⟨some 0, none, none⟩, some 2⟩ [] =
        ([], [⟨"player_controls_update", p, .channel "ZZZZ"⟩]) :=
  control_update_broadcast_before_room_check _ _ 1 2 "ZZZZ" _ rfl rfl rfl
    rfl (by decide) (Or.inl rfl)

/-- C10. A `player_control_update` in which one of the four
required fields is present but falsy (`player_id = 0`,
`timestamp = 0`, empty `controls`, empty `room_code`), or missing
(`None`), is dropped: no reply, no broadcast, no state change — the
falsy-present and missing cases are indistinguishable. -/
theorem control_update_falsy_dropped (d : ControlMsg) (rooms : RoomTable)
    (h : (d.player_id = some 0 ∨ d.player_id = none) ∨
      (d.room_code = some "" ∨ d.room_code = none) ∨
      (d.controls = some Controls.empty ∨ d.controls = none) ∨
      (d.timestamp = some 0 ∨ d.timestamp = none)) :
    player_control_update d rooms = (rooms, []) := by
  unfold player_control_update
  rcases h with h | h | h | h <;> rcases h with h | h <;>
    simp [h, truthyNum, truthyStr, truthyControls, Controls.empty]

/-- Witness for C10 at a concrete message with `player_id = 0`. -/
theorem control_update_falsy_dropped_witness :
    player_control_update
        ⟨some 0, some "ABCD", some ⟨some 1, none, none⟩, some 5⟩ [] =
      ([], []) :=
  control_update_falsy_dropped _ _ (Or.inl (Or.inl rfl))

/-! ## Claim C2: joins rejected once the game has started -/

/-- C2. A `join_game` naming an existing room whose phase is not
`waiting` is rejected: the joining connection gets the
game-in-progress error event and the table — in particular the room's
roster — is unchanged. This code implements the reject-after-start
policy variant. -/
theorem join_rejected_when_started (colorRand : Fin 16777216)
    (sender : String) (d : JoinMsg) (rooms : RoomTable) (code : String)
    (room : Room) (hcode : strUpper (d.room_code.getD "") = code)
    (hne : code ≠ "") (hfind : alistFind code rooms = some room)
    (hphase : room.game_state ≠ .waiting) :
    on_join_game colorRand sender d rooms =
      (rooms, [⟨"error", .err "Game already in progress", .sender⟩]) := by
  unfold on_join_game
  dsimp only
  rw [hcode, if_neg hne, hfind]
  dsimp only
  rw [if_pos hphase]

/-- Witness for C2: joining a racing room is refused and changes
nothing. -/
theorem join_rejected_when_started_witness :
    on_join_game ⟨0, by norm_num⟩ "p2" ⟨some "Bob", some "abcd"⟩
        [("ABCD", ⟨"h", [], .racing⟩)] =
      ([("ABCD", ⟨"h", [], .racing⟩)],
        [⟨"error", .err "Game already in progress", .sender⟩]) :=
  join_rejected_when_started _ _ _ _ "ABCD" ⟨"h", [], .racing⟩ rfl
    (by decide) rfl (by decide)

/-! ## Claim C6: `start_game` is idempotent once racing -/

/-- C6. Handler `start_game` by the room's host when the phase is already
`racing` is a no-op on the table, not an error: the table is returned
exactly as it was (so the room state equals the state after the first
invocation) and the only emitted event is `game_started`, never an
error event. -/
theorem start_game_idempotent (sender : String) (d : StartMsg)
    (rooms : RoomTable) (code : String) (room : Room)
    (hc : d.room_code = some code)
    (hf : alistFind code rooms = some room)
    (hh : room.host_sid = sender) (hr : room.game_state = .racing) :
    start_game sender d rooms =
      (rooms, [⟨"game_started", .game_started, .channel code⟩]) := by
  unfold start_game
  rw [hc]
  dsimp only
  rw [hf]
  dsimp only
  rw [if_neg (not_not_intro hh)]
  obtain ⟨hsid, pls, gs⟩ := room
  cases hr
  rw [alistSet_self hf]

/-- Witness for C6 on a one-room table already racing. -/
theorem start_game_idempotent_witness :
    start_game "h" ⟨some "ABCD"⟩ [("ABCD", ⟨"h", [], .racing⟩)] =
      ([("ABCD", ⟨"h", [], .racing⟩)],
        [⟨"game_started", .game_started, .channel "ABCD"⟩]) :=
  start_game_idempotent _ _ _ "ABCD" ⟨"h", [], .racing⟩ rfl rfl rfl rfl

/-! ## Claim C5: `player_update` is silently dropped outside racing -/

/-- C5. A `player_update` whose target room is absent, or whose
sender is not in the room's roster, or whose room is still `waiting`,
changes no stored position/rotation/velocity (the table is returned
unchanged) and produces no outbound message. -/
theorem player_update_ignored (sender : String) (d : UpdateMsg)
    (rooms : RoomTable)
    (h : ∀ code, d.room_code = some code →
      alistFind code rooms = none ∨
      ∃ room, alistFind code rooms = some room ∧
        (alistFind sender room.players = none ∨
          room.game_state = .waiting)) :
    player_update sender d rooms = (rooms, []) := by
  unfold player_update
  cases hc : d.room_code with
  | none => rfl
  | some code =>
    dsimp only
    rcases h code hc with hf | ⟨room, hf, hcase⟩
    · rw [hf]
    · rw [hf]
      dsimp only
      rcases hcase with hpl | hgs
      · rw [hpl]
      · cases hpl : alistFind sender room.players with
        | none => rfl
        | some pl =>
          dsimp only
          rw [if_pos (by rw [hgs]; exact fun hx => GameState.noConfusion hx)]

/-- Witness for C5: an update to a waiting room from its sole player
is ignored. -/
theorem player_update_ignored_witness :
    player_update "p1"
        ⟨some "ABCD", some [1, 2, 3], some [0, 0, 0], some [0, 0, 1]⟩
        [("ABCD",
          ⟨"h",
            [("p1",
              ⟨1, "Alice", "#000000", some [0, 1/2, 0], some [0, 0, 0],
                some [0, 0, 0], ⟨0, 0, 0⟩⟩)], .waiting⟩)] =
      ([("ABCD",
          ⟨"h",
            [("p1",
              ⟨1, "Alice", "#000000", some [0, 1/2, 0], some [0, 0, 0],
                some [0, 0, 0], ⟨0, 0, 0⟩⟩)], .waiting⟩)], []) :=
  player_update_ignored _ _ _ fun code hc => by
    cases hc
    exact Or.inr ⟨_, rfl, Or.inr rfl⟩

/-! ## Claim C8: `reset_player_position` -/

theorem reset_scan_of_not_found (pid : Option Nat)
    (pos rot : Option (List ℚ)) (host : String)
    (players : List (String × Player))
    (h : ∀ q ∈ players, some q.2.id ≠ pid) :
    reset_scan pid pos rot host players = (players, []) := by
  induction players with
  | nil => rfl
  | cons hd tl ih =>
    obtain ⟨sid, pl⟩ := hd
    have hhd : ¬ some pl.id = pid := h (sid, pl) (List.mem_cons_self _ _)
    simp only [reset_scan, if_neg hhd,
      ih fun q hq => h q (List.mem_cons_of_mem _ hq)]

theorem reset_scan_of_found (pos rot : Option (List ℚ)) (host : String)
    (pre post : List (String × Player)) (sid : String) (pl : Player)
    (hpre : ∀ q ∈ pre, q.2.id ≠ pl.id) :
    reset_scan (some pl.id) pos rot host (pre ++ (sid, pl) :: post) =
      (pre ++ (sid, resetPose pl pos rot) :: post,
        [⟨"position_reset", .position_reset pos rot, .sid sid⟩,
         ⟨"player_position_update",
          .player_position_update pl.id pos rot (some [0, 0, 0]),
          .sid host⟩]) := by
  induction pre with
  | nil => simp [reset_scan]
  | cons hd tl ih =>
    obtain ⟨sid', pl'⟩ := hd
    have hne : ¬ some pl'.id = some pl.id := fun h =>
      hpre (sid', pl') (List.mem_cons_self _ _) (Option.some.inj h)
    have ih' := ih fun q hq => hpre q (List.mem_cons_of_mem _ hq)
    simp only [List.cons_append, reset_scan, if_neg hne, List.append_eq,
      ih']

/-- C8 counterexample. The claim says a `reset_player_position`
naming an absent room yields `NotFound` "surfaced to the originating
connection as a named error event". It is not: at the concrete input
below (room `"ZZZZ"`, empty table) the handler returns with no emit at
all — the failure is logged server-side only. -/
theorem reset_position_missing_room_emits_nothing :
    handle_reset_position
        ⟨some "ZZZZ", some 1, some [1, 2, 3], some [0, 0, 0]⟩ [] =
      ([], []) := rfl

/-- C8 amended. Handler `reset_player_position` on an existing room finds
the first player whose numeric id equals the given `player_id`, sets
that player's position and rotation, zeroes their velocity, sends
`position_reset` to that player's connection and a
`player_position_update` to the host; when the room or a matching
player is absent the request is silently dropped — no event is emitted
to any connection and the table is unchanged (the source only writes a
log line). -/
theorem reset_position_spec :
    (∀ (d : ResetMsg) (rooms : RoomTable) (code : String) (room : Room)
        (pre post : List (String × Player)) (sid : String) (pl : Player),
      d.room_code = some code → code ≠ "" →
      alistFind code rooms = some room →
      room.players = pre ++ (sid, pl) :: post →
      (∀ q ∈ pre, q.2.id ≠ pl.id) →
      d.player_id = some pl.id →
      handle_reset_position d rooms =
        (alistSet code
          {room with players :=
            pre ++ (sid, resetPose pl d.position d.rot) :: post} rooms,
          [⟨"position_reset", .position_reset d.position d.rot, .sid sid⟩,
           ⟨"player_position_update",
            .player_position_update pl.id d.position d.rot
              (some [0, 0, 0]),
            .sid room.host_sid⟩])) ∧
    (∀ (d : ResetMsg) (rooms : RoomTable),
      (d.room_code = none ∨ d.room_code = some "" ∨
        (∃ code, d.room_code = some code ∧ alistFind code rooms = none) ∨
        (∃ code room, d.room_code = some code ∧ code ≠ "" ∧
          alistFind code rooms = some room ∧
          ∀ q ∈ room.players, some q.2.id ≠ d.player_id)) →
      handle_reset_position d rooms = (rooms, [])) := by
  constructor
  · intro d rooms code room pre post sid pl hc hne hf hsplit hpre hid
    unfold handle_reset_position
    rw [hc]
    dsimp only
    rw [if_neg hne, hf]
    dsimp only
    rw [hid, hsplit, reset_scan_of_found _ _ _ _ _ _ _ hpre]
  · intro d rooms h
    unfold handle_reset_position
    rcases h with h | h | ⟨code, hc, hf⟩ | ⟨code, room, hc, hne, hf, hpl⟩
    · rw [h]
    · rw [h]
      dsimp only
      rw [if_pos rfl]
    · rw [hc]
      dsimp only
      by_cases hcode : code = ""
      · rw [if_pos hcode]
      · rw [if_neg hcode, hf]
    · rw [hc]
      dsimp only
      rw [if_neg hne, hf]
      dsimp only
      rw [reset_scan_of_not_found _ _ _ _ _ hpl, alistSet_self hf]

/-- Witness for the amended C8: a concrete found reset and a concrete
silently dropped one. -/
theorem reset_position_spec_witness :
    handle_reset_position
        ⟨some "ABCD", some 1, some [9, 9, 9], some [1, 1, 1]⟩
        [("ABCD",
          ⟨"h",
            [("p1",
              ⟨1, "Alice", "#000000", some [0, 1/2, 0], some [0, 0, 0],
                some [0, 0, 2], ⟨0, 0, 0⟩⟩)], .racing⟩)] =
      ([("ABCD",
          ⟨"h",
            [("p1",
              ⟨1, "Alice", "#000000", some [9, 9, 9], some [1, 1, 1],
                some [0, 0, 0], ⟨0, 0, 0⟩⟩)], .racing⟩)],
        [⟨"position_reset",
          .position_reset (some [9, 9, 9]) (some [1, 1, 1]), .sid "p1"⟩,
         ⟨"player_position_update",
          .player_position_update 1 (some [9, 9, 9]) (some [1, 1, 1])
            (some [0, 0, 0]),
          .sid "h"⟩]) ∧
    handle_reset_position ⟨some "QQQQ", some 3, none, none⟩ [] =
      ([], []) := by
  constructor
  · exact reset_position_spec.1
      ⟨some "ABCD", some 1, some [9, 9, 9], some [1, 1, 1]⟩
      [("ABCD",
        ⟨"h",
          [("p1",
            ⟨1, "Alice", "#000000", some [0, 1/2, 0], some [0, 0, 0],
              some [0, 0, 2], ⟨0, 0, 0⟩⟩)], .racing⟩)]
      "ABCD"
      ⟨"h",
        [("p1",
          ⟨1, "Alice", "#000000", some [0, 1/2, 0], some [0, 0, 0],
            some [0, 0, 2], ⟨0, 0, 0⟩⟩)], .racing⟩
      [] [] "p1"
      ⟨1, "Alice", "#000000", some [0, 1/2, 0], some [0, 0, 0],
        some [0, 0, 2], ⟨0, 0, 0⟩⟩
      rfl (by decide) rfl rfl (by intro q hq; cases hq) rfl
  · exact reset_position_spec.2 ⟨some "QQQQ", some 3, none, none⟩ []
      (Or.inr (Or.inr (Or.inl ⟨"QQQQ", rfl, rfl⟩)))

/-! ## Claim C3: sequential ids over a join sequence -/

theorem alistMem_append_single {k k' : String} {v : α}
    {l : List (String × α)} (h1 : ¬ alistMem k l) (h2 : k' ≠ k) :
    ¬ alistMem k (l ++ [(k', v)]) := by
  induction l with
  | nil =>
    simp [alistMem, alistFind, h2]
  | cons hd tl ih =>
    obtain ⟨a, b⟩ := hd
    by_cases ha : a = k
    · exact absurd (by simp [alistMem, alistFind, ha]) h1
    · intro hm
      have h1' : ¬ alistMem k tl := fun hx =>
        h1 (by simpa [alistMem, alistFind, ha] using hx)
      exact ih h1' (by simpa [alistMem, alistFind, ha] using hm)

/-- The success path of `on_join_game`: room found and still waiting;
the joined player gets id `len + 1` and the default pose, and the two
notification emits go to the joiner and the host. -/
theorem join_success_eq (colorRand : Fin 16777216) (sender : String)
    (d : JoinMsg) (rooms : RoomTable) (code : String) (room : Room)
    (hcode : strUpper (d.room_code.getD "") = code) (hne : code ≠ "")
    (hf : alistFind code rooms = some room)
    (hw : room.game_state = .waiting) :
    on_join_game colorRand sender d rooms =
      (alistSet code
        ⟨room.host_sid,
          alistSet sender
            (joinedPlayer colorRand (d.player_name.getD "Player")
              room.players.length) room.players,
          room.game_state⟩ rooms,
        [⟨"game_joined",
          .game_joined (room.players.length + 1)
            (d.player_name.getD "Player") (hexColor colorRand.val),
          .sender⟩,
         ⟨"player_joined",
          .player_joined (room.players.length + 1)
            (d.player_name.getD "Player") (hexColor colorRand.val)
            [0, 1/2, 0] [0, 0, 0] [0, 0, 0],
          .sid room.host_sid⟩]) := by
  unfold on_join_game
  dsimp only
  rw [hcode, if_neg hne, hf]
  dsimp only
  rw [if_neg (fun hx => hx hw)]

/-- Roster growth over `joinSeq`: starting from any found waiting room
whose roster avoids the joining sids, the joins append their sids in
order and assign ids `len+1, len+2, ...`. -/
theorem joinSeq_roster (code : String) (hne : code ≠ "")
    (hup : strUpper code = code) :
    ∀ (joins : List (Fin 16777216 × String × String)) (rooms : RoomTable)
      (room : Room),
      alistFind code rooms = some room →
      room.game_state = .waiting →
      (∀ j ∈ joins, ¬ alistMem j.2.1 room.players) →
      (joins.map fun j => j.2.1).Nodup →
      ∃ room' : Room,
        alistFind code (joinSeq code rooms joins) = some room' ∧
        room'.players.map Prod.fst =
          room.players.map Prod.fst ++ (joins.map fun j => j.2.1) ∧
        (room'.players.map fun q => q.2.id) =
          (room.players.map fun q => q.2.id) ++
            List.range' (room.players.length + 1) joins.length ∧
        room'.game_state = .waiting ∧ room'.host_sid = room.host_sid := by
  intro joins
  induction joins with
  | nil =>
    intro rooms room hf hw _ _
    exact ⟨room, hf, by simp, by simp, hw, rfl⟩
  | cons j rest ih =>
    obtain ⟨cr, sid, nm⟩ := j
    intro rooms room hf hw hfresh hnodup
    have hdcode : strUpper ((⟨some nm, some code⟩ : JoinMsg).room_code.getD "")
        = code := by simpa using hup
    have hstep := join_success_eq cr sid ⟨some nm, some code⟩ rooms code
      room hdcode hne hf hw
    have hsid : ¬ alistMem sid room.players :=
      hfresh (cr, sid, nm) (List.mem_cons_self _ _)
    have happ := alistSet_of_not_mem
      (v := joinedPlayer cr nm room.players.length) hsid
    have htab : (on_join_game cr sid ⟨some nm, some code⟩ rooms).1 =
        alistSet code
          ⟨room.host_sid,
            room.players ++ [(sid, joinedPlayer cr nm room.players.length)],
            room.game_state⟩ rooms := by
      rw [hstep]
      simp only [Option.getD_some]
      rw [happ]
    have hf1 : alistFind code
        (on_join_game cr sid ⟨some nm, some code⟩ rooms).1 =
        some ⟨room.host_sid,
          room.players ++ [(sid, joinedPlayer cr nm room.players.length)],
          room.game_state⟩ := by
      rw [htab, alistFind_alistSet, if_pos rfl]
    have hsidnotin : sid ∉ rest.map fun j => j.2.1 := by
      have := hnodup
      simp only [List.map_cons, List.nodup_cons] at this
      exact this.1
    have hfresh1 : ∀ j' ∈ rest, ¬ alistMem j'.2.1
        (room.players ++ [(sid, joinedPlayer cr nm room.players.length)]) := by
      intro j' hj'
      refine alistMem_append_single
        (hfresh j' (List.mem_cons_of_mem _ hj')) ?_
      intro hx
      exact hsidnotin (hx ▸ List.mem_map_of_mem (fun j => j.2.1) hj')
    have hnodup1 : (rest.map fun j => j.2.1).Nodup := by
      have := hnodup
      simp only [List.map_cons, List.nodup_cons] at this
      exact this.2
    obtain ⟨room', hfind', hfst', hids', hw', hhost'⟩ :=
      ih ((on_join_game cr sid ⟨some nm, some code⟩ rooms).1)
        ⟨room.host_sid,
          room.players ++ [(sid, joinedPlayer cr nm room.players.length)],
          room.game_state⟩ hf1 hw hfresh1 hnodup1
    refine ⟨room', hfind', ?_, ?_, hw', hhost'⟩
    · rw [hfst']
      simp [List.append_assoc]
    · rw [hids']
      simp only [List.map_append, List.length_append, List.map_cons,
        List.length_cons, List.map_nil, List.length_nil]
      rw [List.append_assoc, List.range'_succ]
      simp [joinedPlayer, Nat.add_assoc, Nat.add_comm 1 1]

/-- C3. After `N` successful joins to a fresh room (empty roster,
`waiting` phase) by pairwise-distinct connections, the roster holds
exactly `N` players: the sids are the joining connections in order and
the ids are exactly `1, 2, ..., N`, each assigned as roster size plus
one at join time. -/
theorem join_ids_sequential (joins : List (Fin 16777216 × String × String))
    (rooms : RoomTable) (code host : String)
    (hne : code ≠ "") (hup : strUpper code = code)
    (hfind : alistFind code rooms = some ⟨host, [], .waiting⟩)
    (hnodup : (joins.map fun j => j.2.1).Nodup) :
    ∃ room' : Room,
      alistFind code (joinSeq code rooms joins) = some room' ∧
      (room'.players.map fun q => q.2.id) = List.range' 1 joins.length ∧
      room'.players.map Prod.fst = (joins.map fun j => j.2.1) := by
  obtain ⟨room', h1, h2, h3, _, _⟩ :=
    joinSeq_roster code hne hup joins rooms ⟨host, [], .waiting⟩ hfind rfl
      (by intro j hj; simp [alistMem, alistFind]) hnodup
  refine ⟨room', h1, ?_, ?_⟩
  · simpa using h3
  · simpa using h2

/-- Witness for C3: two distinct connections join a fresh room; ids
come out `[1, 2]`. -/
theorem join_ids_sequential_witness :
    ∃ room' : Room,
      alistFind "ABCD"
          (joinSeq "ABCD" [("ABCD", ⟨"h", [], .waiting⟩)]
            [(⟨17, by norm_num⟩, "p1", "Alice"),
             (⟨3, by norm_num⟩, "p2", "Bob")]) = some room' ∧
      (room'.players.map fun q => q.2.id) = List.range' 1 2 ∧
      room'.players.map Prod.fst = ["p1", "p2"] := by
  have h := join_ids_sequential
    [(⟨17, by norm_num⟩, "p1", "Alice"), (⟨3, by norm_num⟩, "p2", "Bob")]
    [("ABCD", ⟨"h", [], .waiting⟩)] "ABCD" "h" (by decide) (by decide)
    rfl (by decide)
  simpa using h

/-! ## Claim C1: room codes are unique 4-letter uppercase strings -/

theorem alistMem_alistSet_of_mem {c k : String} {v : α}
    {l : List (String × α)} (h : alistMem c l) :
    alistMem c (alistSet k v l) := by
  unfold alistMem at *
  rw [alistFind_alistSet]
  by_cases hc : c = k
  · simp [hc]
  · simpa [hc] using h

theorem alistMem_alistSet_self (k : String) (v : α)
    (l : List (String × α)) : alistMem k (alistSet k v l) := by
  unfold alistMem
  rw [alistFind_alistSet, if_pos rfl]
  rfl

theorem fresh_code_not_mem (letters : Nat → Fin 26) (rooms : RoomTable)
    (h : ∃ i, ¬ alistMem (generate_room_code letters i) rooms) :
    ¬ alistMem (fresh_code letters rooms h) rooms :=
  Nat.find_spec h

theorem generate_room_code_valid (letters : Nat → Fin 26) (i : Nat) :
    isValidRoomCode (generate_room_code letters i) := by
  have hchar : ∀ f : Fin 26,
      65 ≤ (codeChar f).toNat ∧ (codeChar f).toNat ≤ 90 := by decide
  constructor
  · simp [generate_room_code, String.length]
  · intro c hc
    simp only [generate_room_code, String.mk, List.mem_map,
      List.mem_range] at hc
    obtain ⟨j, _, rfl⟩ := hc
    exact hchar _

theorem createTrace_avoid {s : RoomTable} {codes : List String}
    {s' : RoomTable} (tr : CreateTrace s codes s') :
    ∀ c, alistMem c s → c ∉ codes := by
  induction tr with
  | nil rooms => intro c _ hmem; exact List.not_mem_nil c hmem
  | cons rooms final letters host codes h _ ih =>
    intro c hc hmem
    rcases List.mem_cons.mp hmem with rfl | hmem'
    · exact Nat.find_spec h hc
    · refine ih c ?_ hmem'
      exact alistMem_alistSet_of_mem hc

/-- C1. Along any sequence of `create_room` calls with no
intervening destruction, the returned codes are pairwise distinct and
each is a 4-character uppercase A-Z string; distinctness holds because
each generated code is checked against the live table (the
`while room_code in game_rooms` loop behind `fresh_code`),
regenerating on collision, before insertion. -/
theorem create_room_codes_distinct {s : RoomTable} {codes : List String}
    {s' : RoomTable} (tr : CreateTrace s codes s') :
    codes.Nodup ∧ ∀ c ∈ codes, isValidRoomCode c := by
  induction tr with
  | nil rooms => exact ⟨List.nodup_nil, by intro c hc; cases hc⟩
  | cons rooms final letters host codes h tl ih =>
    refine ⟨List.nodup_cons.mpr ⟨?_, ih.1⟩, ?_⟩
    · refine createTrace_avoid tl _ ?_
      exact alistMem_alistSet_self _ _ _
    · intro c hc
      rcases List.mem_cons.mp hc with rfl | hc'
      · exact generate_room_code_valid _ _
      · exact ih.2 c hc'

/-- Witness for C1: two concrete `create_room` calls, the second
colliding on nothing; codes `"AAAA"` and `"BBBB"` come out distinct
and valid. -/
theorem create_room_codes_distinct_witness :
    (["AAAA", "BBBB"] : List String).Nodup ∧
    ∀ c ∈ (["AAAA", "BBBB"] : List String), isValidRoomCode c := by
  have h₀ : ∃ i, ¬ alistMem (generate_room_code lettersW i)
      ([] : RoomTable) := ⟨0, by decide⟩
  have e₀ : fresh_code lettersW [] h₀ = "AAAA" := by
    unfold fresh_code
    have hz : Nat.find h₀ = 0 := (Nat.find_eq_zero h₀).mpr (by decide)
    rw [hz]
    decide
  have hs₁ : (create_room lettersW "h" [] h₀).1 =
      [("AAAA", ⟨"h", [], .waiting⟩)] := by
    show alistSet (fresh_code lettersW [] h₀)
      (⟨"h", [], .waiting⟩ : Room) [] = _
    rw [e₀]
    rfl
  have h₁ : ∃ i, ¬ alistMem (generate_room_code lettersW i)
      [("AAAA", (⟨"h", [], .waiting⟩ : Room))] := ⟨1, by decide⟩
  have e₁ : fresh_code lettersW [("AAAA", ⟨"h", [], .waiting⟩)] h₁ =
      "BBBB" := by
    unfold fresh_code
    have hone : Nat.find h₁ = 1 := by
      rw [Nat.find_eq_iff]
      refine ⟨by decide, ?_⟩
      intro n hn
      have hn0 : n = 0 := by omega
      subst hn0
      decide
    rw [hone]
    decide
  have tr2 : CreateTrace [("AAAA", ⟨"h", [], .waiting⟩)] ["BBBB"]
      ((create_room lettersW "h2" [("AAAA", ⟨"h", [], .waiting⟩)] h₁).1) := by
    have tr0 := CreateTrace.cons [("AAAA", ⟨"h", [], .waiting⟩)] _ lettersW
      "h2" [] h₁ (CreateTrace.nil _)
    rwa [e₁] at tr0
  have trInner : CreateTrace (create_room lettersW "h" [] h₀).1 ["BBBB"]
      ((create_room lettersW "h2" [("AAAA", ⟨"h", [], .waiting⟩)] h₁).1) := by
    rw [hs₁]
    exact tr2
  have trOuter := CreateTrace.cons [] _ lettersW "h" ["BBBB"] h₀ trInner
  rw [e₀] at trOuter
  exact create_room_codes_distinct trOuter

/-! ## Claim C7: phase monotonicity over all handlers -/

theorem alistMem_iff_mem_keys {c : String} {l : List (String × α)} :
    alistMem c l ↔ c ∈ l.map Prod.fst := by
  induction l with
  | nil => simp [alistMem, alistFind]
  | cons hd tl ih =>
    obtain ⟨a, b⟩ := hd
    by_cases ha : a = c
    · subst ha
      simp [alistMem, alistFind]
    · simp only [alistMem, alistFind, if_neg ha, List.map_cons,
        List.mem_cons]
      rw [← alistMem, ih]
      constructor
      · exact Or.inr
      · rintro (rfl | hm)
        · exact absurd rfl ha
        · exact hm

theorem mem_keys_alistSet {c k : String} {v : α} {l : List (String × α)}
    (h : c ∈ (alistSet k v l).map Prod.fst) :
    c = k ∨ c ∈ l.map Prod.fst := by
  induction l with
  | nil => simpa [alistSet] using h
  | cons hd tl ih =>
    obtain ⟨a, b⟩ := hd
    by_cases ha : a = k
    · subst ha
      have hset : alistSet a v ((a, b) :: tl) = (a, v) :: tl := by
        simp [alistSet]
      rw [hset, List.map_cons, List.mem_cons] at h
      rcases h with rfl | hm
      · exact Or.inl rfl
      · exact Or.inr (List.mem_cons_of_mem _ hm)
    · have hset : alistSet k v ((a, b) :: tl) = (a, b) :: alistSet k v tl := by
        simp [alistSet, ha]
      rw [hset, List.map_cons, List.mem_cons] at h
      rcases h with rfl | hm
      · exact Or.inr (List.mem_cons_self _ _)
      · rcases ih hm with rfl | hm'
        · exact Or.inl rfl
        · exact Or.inr (List.mem_cons_of_mem _ hm')

theorem nodup_keys_alistSet {k : String} {v : α} {l : List (String × α)}
    (h : (l.map Prod.fst).Nodup) : ((alistSet k v l).map Prod.fst).Nodup := by
  induction l with
  | nil => simp [alistSet]
  | cons hd tl ih =>
    obtain ⟨a, b⟩ := hd
    simp only [List.map_cons, List.nodup_cons] at h
    by_cases ha : a = k
    · subst ha
      have hset : alistSet a v ((a, b) :: tl) = (a, v) :: tl := by
        simp [alistSet]
      rw [hset, List.map_cons, List.nodup_cons]
      exact ⟨h.1, h.2⟩
    · have hset : alistSet k v ((a, b) :: tl) = (a, b) :: alistSet k v tl := by
        simp [alistSet, ha]
      rw [hset, List.map_cons, List.nodup_cons]
      refine ⟨?_, ih h.2⟩
      intro hmem
      rcases mem_keys_alistSet hmem with rfl | hm
      · exact ha rfl
      · exact h.1 hm

theorem disconnect_scan_find {client : String} :
    ∀ {l : RoomTable}, (l.map Prod.fst).Nodup →
      ∀ {code : String} {r' : Room},
        alistFind code (disconnect_scan client l).1 = some r' →
        ∃ r, alistFind code l = some r ∧
          r'.game_state = r.game_state := by
  intro l
  induction l with
  | nil =>
    intro _ code r' h
    simp [disconnect_scan, alistFind] at h
  | cons hd tl ih =>
    obtain ⟨c₀, room⟩ := hd
    intro hnd code r' hfind
    simp only [List.map_cons, List.nodup_cons] at hnd
    by_cases hhost : room.host_sid = client
    · rw [disconnect_scan, if_pos hhost] at hfind
      dsimp only at hfind
      by_cases hc : c₀ = code
      · subst hc
        exact absurd (alistMem_iff_mem_keys.mp (alistMem_of_find hfind))
          hnd.1
      · exact ⟨r', by rw [alistFind, if_neg hc]; exact hfind, rfl⟩
    · rw [disconnect_scan, if_neg hhost] at hfind
      cases hpl : alistFind client room.players with
      | some pl =>
        rw [hpl] at hfind
        dsimp only at hfind
        rw [alistFind] at hfind
        by_cases hc : c₀ = code
        · rw [if_pos hc] at hfind
          obtain rfl := Option.some.inj hfind
          exact ⟨room, by rw [alistFind, if_pos hc], rfl⟩
        · rw [if_neg hc] at hfind
          exact ⟨r', by rw [alistFind, if_neg hc]; exact hfind, rfl⟩
      | none =>
        rw [hpl] at hfind
        dsimp only at hfind
        rw [alistFind] at hfind
        by_cases hc : c₀ = code
        · rw [if_pos hc] at hfind
          obtain rfl := Option.some.inj hfind
          exact ⟨room, by rw [alistFind, if_pos hc], rfl⟩
        · rw [if_neg hc] at hfind
          obtain ⟨r, hr, he⟩ := ih hnd.2 hfind
          exact ⟨r, by rw [alistFind, if_neg hc]; exact hr, he⟩

theorem disconnect_scan_keys_sublist (client : String) :
    ∀ l : RoomTable,
      ((disconnect_scan client l).1.map Prod.fst).Sublist
        (l.map Prod.fst) := by
  intro l
  induction l with
  | nil => simp [disconnect_scan]
  | cons hd tl ih =>
    obtain ⟨c₀, room⟩ := hd
    by_cases hhost : room.host_sid = client
    · rw [disconnect_scan, if_pos hhost]
      exact (List.sublist_cons_self _ _)
    · rw [disconnect_scan, if_neg hhost]
      cases hpl : alistFind client room.players with
      | some pl => simp
      | none =>
        dsimp only
        simpa using List.Sublist.cons₂ c₀ ih

theorem rename_scan_find {sender nm : String} :
    ∀ {l : RoomTable} {res : RoomTable × List Emit},
      rename_scan sender nm l = some res →
      ∀ {code : String} {r' : Room},
        alistFind code res.1 = some r' →
        ∃ r, alistFind code l = some r ∧
          r'.game_state = r.game_state := by
  intro l
  induction l with
  | nil => intro res h; simp [rename_scan] at h
  | cons hd tl ih =>
    obtain ⟨c₀, room⟩ := hd
    intro res hres code r' hfind
    rw [rename_scan] at hres
    cases hpl : alistFind sender room.players with
    | some pl =>
      rw [hpl] at hres
      obtain rfl := Option.some.inj hres
      dsimp only at hfind
      rw [alistFind] at hfind
      by_cases hc : c₀ = code
      · rw [if_pos hc] at hfind
        obtain rfl := Option.some.inj hfind
        exact ⟨room, by rw [alistFind, if_pos hc], rfl⟩
      · rw [if_neg hc] at hfind
        exact ⟨r', by rw [alistFind, if_neg hc]; exact hfind, rfl⟩
    | none =>
      rw [hpl] at hres
      dsimp only at hres
      cases hrec : rename_scan sender nm tl with
      | none => rw [hrec] at hres; cases hres
      | some res' =>
        rw [hrec] at hres
        obtain rfl := Option.some.inj hres
        dsimp only at hfind
        rw [alistFind] at hfind
        by_cases hc : c₀ = code
        · rw [if_pos hc] at hfind
          obtain rfl := Option.some.inj hfind
          exact ⟨room, by rw [alistFind, if_pos hc], rfl⟩
        · rw [if_neg hc] at hfind
          obtain ⟨r, hr, he⟩ := ih hrec hfind
          exact ⟨r, by rw [alistFind, if_neg hc]; exact hr, he⟩

theorem rename_scan_keys {sender nm : String} :
    ∀ {l : RoomTable} {res : RoomTable × List Emit},
      rename_scan sender nm l = some res →
      res.1.map Prod.fst = l.map Prod.fst := by
  intro l
  induction l with
  | nil => intro res h; simp [rename_scan] at h
  | cons hd tl ih =>
    obtain ⟨c₀, room⟩ := hd
    intro res hres
    rw [rename_scan] at hres
    cases hpl : alistFind sender room.players with
    | some pl =>
      rw [hpl] at hres
      obtain rfl := Option.some.inj hres
      simp
    | none =>
      rw [hpl] at hres
      dsimp only at hres
      cases hrec : rename_scan sender nm tl with
      | none => rw [hrec] at hres; cases hres
      | some res' =>
        rw [hrec] at hres
        obtain rfl := Option.some.inj hres
        simp [ih hrec]

theorem find_spec_of_set_preserving {s : RoomTable} {code₀ : String}
    {room room' : Room} (hf : alistFind code₀ s = some room)
    (hg : room'.game_state = room.game_state) {code : String} {r' : Room}
    (h' : alistFind code (alistSet code₀ room' s) = some r') :
    ∃ r, alistFind code s = some r ∧ r'.game_state = r.game_state := by
  rw [alistFind_alistSet] at h'
  by_cases hc : code = code₀
  · rw [if_pos hc] at h'
    obtain rfl := Option.some.inj h'
    exact ⟨room, hc ▸ hf, hg⟩
  · rw [if_neg hc] at h'
    exact ⟨r', h', rfl⟩

theorem control_table_eq (d : ControlMsg) (rooms : RoomTable) :
    (player_control_update d rooms).1 = rooms := by
  unfold player_control_update
  dsimp only
  split <;> rfl

theorem create_find_spec (letters : Nat → Fin 26) (host : String)
    (rooms : RoomTable)
    (h : ∃ i, ¬ alistMem (generate_room_code letters i) rooms)
    {code : String} {r' : Room}
    (h' : alistFind code (create_room letters host rooms h).1 = some r') :
    (∃ r, alistFind code rooms = some r ∧
      r'.game_state = r.game_state) ∨
    (alistFind code rooms = none ∧ r'.game_state = .waiting) := by
  unfold create_room at h'
  dsimp only at h'
  rw [alistFind_alistSet] at h'
  by_cases hc : code = fresh_code letters rooms h
  · rw [if_pos hc] at h'
    obtain rfl := Option.some.inj h'
    refine Or.inr ⟨?_, rfl⟩
    rw [hc]
    exact alistFind_eq_none_of_not_mem (Nat.find_spec h)
  · rw [if_neg hc] at h'
    exact Or.inl ⟨r', h', rfl⟩

theorem join_find_spec (colorRand : Fin 16777216) (sender : String)
    (d : JoinMsg) (rooms : RoomTable) {code : String} {r' : Room}
    (h' : alistFind code (on_join_game colorRand sender d rooms).1 =
      some r') :
    ∃ r, alistFind code rooms = some r ∧
      r'.game_state = r.game_state := by
  unfold on_join_game at h'
  dsimp only at h'
  by_cases hrc : strUpper (d.room_code.getD "") = ""
  · rw [if_pos hrc] at h'
    exact ⟨r', h', rfl⟩
  · rw [if_neg hrc] at h'
    cases hfind : alistFind (strUpper (d.room_code.getD "")) rooms with
    | none =>
      rw [hfind] at h'
      exact ⟨r', h', rfl⟩
    | some room =>
      rw [hfind] at h'
      dsimp only at h'
      by_cases hw : room.game_state ≠ GameState.waiting
      · rw [if_pos hw] at h'
        exact ⟨r', h', rfl⟩
      · rw [if_neg hw] at h'
        dsimp only at h'
        exact find_spec_of_set_preserving hfind (by rfl) h'

theorem start_find_spec (sender : String) (d : StartMsg)
    (rooms : RoomTable) {code : String} {r' : Room}
    (h' : alistFind code (start_game sender d rooms).1 = some r') :
    (∃ r, alistFind code rooms = some r ∧
      r'.game_state = r.game_state) ∨ r'.game_state = .racing := by
  unfold start_game at h'
  cases hc : d.room_code with
  | none =>
    rw [hc] at h'
    exact Or.inl ⟨r', h', rfl⟩
  | some code₀ =>
    rw [hc] at h'
    dsimp only at h'
    cases hfind : alistFind code₀ rooms with
    | none =>
      rw [hfind] at h'
      exact Or.inl ⟨r', h', rfl⟩
    | some room =>
      rw [hfind] at h'
      dsimp only at h'
      by_cases hh : room.host_sid ≠ sender
      · rw [if_pos hh] at h'
        exact Or.inl ⟨r', h', rfl⟩
      · rw [if_neg hh] at h'
        rw [alistFind_alistSet] at h'
        by_cases hcq : code = code₀
        · rw [if_pos hcq] at h'
          obtain rfl := Option.some.inj h'
          exact Or.inr rfl
        · rw [if_neg hcq] at h'
          exact Or.inl ⟨r', h', rfl⟩

theorem update_find_spec (sender : String) (d : UpdateMsg)
    (rooms : RoomTable) {code : String} {r' : Room}
    (h' : alistFind code (player_update sender d rooms).1 = some r') :
    ∃ r, alistFind code rooms = some r ∧
      r'.game_state = r.game_state := by
  unfold player_update at h'
  cases hc : d.room_code with
  | none =>
    rw [hc] at h'
    exact ⟨r', h', rfl⟩
  | some code₀ =>
    rw [hc] at h'
    dsimp only at h'
    cases hfind : alistFind code₀ rooms with
    | none =>
      rw [hfind] at h'
      exact ⟨r', h', rfl⟩
    | some room =>
      rw [hfind] at h'
      dsimp only at h'
      cases hpl : alistFind sender room.players with
      | none =>
        rw [hpl] at h'
        exact ⟨r', h', rfl⟩
      | some pl =>
        rw [hpl] at h'
        dsimp only at h'
        by_cases hg : room.game_state ≠ GameState.racing
        · rw [if_pos hg] at h'
          exact ⟨r', h', rfl⟩
        · rw [if_neg hg] at h'
          dsimp only at h'
          exact find_spec_of_set_preserving hfind (by rfl) h'

theorem reset_find_spec (d : ResetMsg) (rooms : RoomTable)
    {code : String} {r' : Room}
    (h' : alistFind code (handle_reset_position d rooms).1 = some r') :
    ∃ r, alistFind code rooms = some r ∧
      r'.game_state = r.game_state := by
  unfold handle_reset_position at h'
  cases hc : d.room_code with
  | none =>
    rw [hc] at h'
    exact ⟨r', h', rfl⟩
  | some code₀ =>
    rw [hc] at h'
    dsimp only at h'
    by_cases hcode : code₀ = ""
    · rw [if_pos hcode] at h'
      exact ⟨r', h', rfl⟩
    · rw [if_neg hcode] at h'
      cases hfind : alistFind code₀ rooms with
      | none =>
        rw [hfind] at h'
        exact ⟨r', h', rfl⟩
      | some room =>
        rw [hfind] at h'
        dsimp only at h'
        exact find_spec_of_set_preserving hfind (by rfl) h'

theorem rename_find_spec (sender : String) (d : NameMsg)
    (rooms : RoomTable) {code : String} {r' : Room}
    (h' : alistFind code (update_player_name sender d rooms).1 =
      some r') :
    ∃ r, alistFind code rooms = some r ∧
      r'.game_state = r.game_state := by
  unfold update_player_name at h'
  dsimp only at h'
  by_cases hnm : (d.name.getD "").trim = ""
  · rw [if_pos hnm] at h'
    exact ⟨r', h', rfl⟩
  · rw [if_neg hnm] at h'
    cases hres : rename_scan sender ((d.name.getD "").trim) rooms with
    | none =>
      rw [hres] at h'
      exact ⟨r', h', rfl⟩
    | some res =>
      rw [hres] at h'
      exact rename_scan_find hres h'

/-- Phase accounting for one arbitrary handler invocation: every room
found afterwards either existed before with the same phase, or is a
fresh `waiting` room, or is `racing`. -/
theorem step_find_spec {s s' : RoomTable} (hnd : NodupKeys s)
    (st : Step s s') :
    ∀ code r', alistFind code s' = some r' →
      (∃ r, alistFind code s = some r ∧
        r'.game_state = r.game_state) ∨
      (alistFind code s = none ∧ r'.game_state = .waiting) ∨
      r'.game_state = .racing := by
  cases st with
  | create letters host rooms h =>
    intro code r' h'
    rcases create_find_spec letters host s h h' with h1 | h2
    · exact Or.inl h1
    · exact Or.inr (Or.inl h2)
  | control d =>
    intro code r' h'
    rw [control_table_eq] at h'
    exact Or.inl ⟨r', h', rfl⟩
  | join colorRand sender d =>
    intro code r' h'
    exact Or.inl (join_find_spec colorRand sender d s h')
  | start sender d =>
    intro code r' h'
    rcases start_find_spec sender d s h' with h1 | h2
    · exact Or.inl h1
    · exact Or.inr (Or.inr h2)
  | update sender d =>
    intro code r' h'
    exact Or.inl (update_find_spec sender d s h')
  | dropConn client =>
    intro code r' h'
    exact Or.inl (disconnect_scan_find hnd h')
  | reset d =>
    intro code r' h'
    exact Or.inl (reset_find_spec d s h')
  | rename sender d =>
    intro code r' h'
    exact Or.inl (rename_find_spec sender d s h')

theorem join_table_cases (colorRand : Fin 16777216) (sender : String)
    (d : JoinMsg) (rooms : RoomTable) :
    (on_join_game colorRand sender d rooms).1 = rooms ∨
    ∃ k v, (on_join_game colorRand sender d rooms).1 =
      alistSet k v rooms := by
  unfold on_join_game
  dsimp only
  by_cases hrc : strUpper (d.room_code.getD "") = ""
  · rw [if_pos hrc]
    exact Or.inl rfl
  · rw [if_neg hrc]
    cases hfind : alistFind (strUpper (d.room_code.getD "")) rooms with
    | none => exact Or.inl rfl
    | some room =>
      dsimp only
      by_cases hw : room.game_state ≠ GameState.waiting
      · rw [if_pos hw]
        exact Or.inl rfl
      · rw [if_neg hw]
        exact Or.inr ⟨_, _, rfl⟩

theorem start_table_cases (sender : String) (d : StartMsg)
    (rooms : RoomTable) :
    (start_game sender d rooms).1 = rooms ∨
    ∃ k v, (start_game sender d rooms).1 = alistSet k v rooms := by
  unfold start_game
  cases hc : d.room_code with
  | none => exact Or.inl rfl
  | some code₀ =>
    dsimp only
    cases hfind : alistFind code₀ rooms with
    | none => exact Or.inl rfl
    | some room =>
      dsimp only
      by_cases hh : room.host_sid ≠ sender
      · rw [if_pos hh]
        exact Or.inl rfl
      · rw [if_neg hh]
        exact Or.inr ⟨_, _, rfl⟩

theorem update_table_cases (sender : String) (d : UpdateMsg)
    (rooms : RoomTable) :
    (player_update sender d rooms).1 = rooms ∨
    ∃ k v, (player_update sender d rooms).1 = alistSet k v rooms := by
  unfold player_update
  cases hc : d.room_code with
  | none => exact Or.inl rfl
  | some code₀ =>
    dsimp only
    cases hfind : alistFind code₀ rooms with
    | none => exact Or.inl rfl
    | some room =>
      dsimp only
      cases hpl : alistFind sender room.players with
      | none => exact Or.inl rfl
      | some pl =>
        dsimp only
        by_cases hg : room.game_state ≠ GameState.racing
        · rw [if_pos hg]
          exact Or.inl rfl
        · rw [if_neg hg]
          exact Or.inr ⟨_, _, rfl⟩

theorem reset_table_cases (d : ResetMsg) (rooms : RoomTable) :
    (handle_reset_position d rooms).1 = rooms ∨
    ∃ k v, (handle_reset_position d rooms).1 = alistSet k v rooms := by
  unfold handle_reset_position
  cases hc : d.room_code with
  | none => exact Or.inl rfl
  | some code₀ =>
    dsimp only
    by_cases hcode : code₀ = ""
    · rw [if_pos hcode]
      exact Or.inl rfl
    · rw [if_neg hcode]
      cases hfind : alistFind code₀ rooms with
      | none => exact Or.inl rfl
      | some room =>
        dsimp only
        exact Or.inr ⟨_, _, rfl⟩

theorem rename_table_cases (sender : String) (d : NameMsg)
    (rooms : RoomTable) :
    (update_player_name sender d rooms).1 = rooms ∨
    ∃ res, rename_scan sender ((d.name.getD "").trim) rooms = some res ∧
      (update_player_name sender d rooms).1 = res.1 := by
  unfold update_player_name
  dsimp only
  by_cases hnm : (d.name.getD "").trim = ""
  · rw [if_pos hnm]
    exact Or.inl rfl
  · rw [if_neg hnm]
    cases hres : rename_scan sender ((d.name.getD "").trim) rooms with
    | none => exact Or.inl rfl
    | some res => exact Or.inr ⟨res, rfl, rfl⟩

/-- Key uniqueness of the room table is preserved by every handler. -/
theorem step_nodupKeys {s s' : RoomTable} (st : Step s s')
    (h : NodupKeys s) : NodupKeys s' := by
  unfold NodupKeys at *
  cases st with
  | create letters host rooms hex =>
    unfold create_room
    dsimp only
    exact nodup_keys_alistSet h
  | control d =>
    rw [control_table_eq]
    exact h
  | join colorRand sender d =>
    rcases join_table_cases colorRand sender d s with he | ⟨k, v, he⟩
    · rw [he]; exact h
    · rw [he]; exact nodup_keys_alistSet h
  | start sender d =>
    rcases start_table_cases sender d s with he | ⟨k, v, he⟩
    · rw [he]; exact h
    · rw [he]; exact nodup_keys_alistSet h
  | update sender d =>
    rcases update_table_cases sender d s with he | ⟨k, v, he⟩
    · rw [he]; exact h
    · rw [he]; exact nodup_keys_alistSet h
  | dropConn client =>
    unfold handle_disconnect
    exact h.sublist (disconnect_scan_keys_sublist client s)
  | reset d =>
    rcases reset_table_cases d s with he | ⟨k, v, he⟩
    · rw [he]; exact h
    · rw [he]; exact nodup_keys_alistSet h
  | rename sender d =>
    rcases rename_table_cases sender d s with he | ⟨res, hres, he⟩
    · rw [he]; exact h
    · rw [he, rename_scan_keys hres]; exact h

theorem reachable_nodupKeys {s : RoomTable} (h : Reachable s) :
    NodupKeys s := by
  induction h with
  | init => exact List.nodup_nil
  | step _ hst ih => exact step_nodupKeys hst ih

theorem reachable_no_finished {s : RoomTable} (h : Reachable s) :
    ∀ code r, alistFind code s = some r →
      r.game_state ≠ .finished := by
  induction h with
  | init =>
    intro code r hf
    simp [alistFind] at hf
  | step hr hst ih =>
    intro code r hf
    rcases step_find_spec (reachable_nodupKeys hr) hst code r hf with
      ⟨r₀, hf₀, he⟩ | ⟨_, hw⟩ | hrac
    · rw [he]
      exact ih code r₀ hf₀
    · rw [hw]
      exact fun hx => GameState.noConfusion hx
    · rw [hrac]
      exact fun hx => GameState.noConfusion hx

/-- C7. In every state reachable by any sequence of handler
invocations: no single handler invocation ever takes a room's phase
from `racing` back to `waiting` (a room present before and after a
step that was `racing` is still `racing`), and no reachable table
holds a room in phase `finished` — that phase is declared but
unreachable by the current logic. -/
theorem phase_monotone_no_finished :
    (∀ s s', Reachable s → Step s s' → ∀ code r r',
      alistFind code s = some r → alistFind code s' = some r' →
      r.game_state = .racing → r'.game_state = .racing) ∧
    (∀ s, Reachable s → ∀ code r, alistFind code s = some r →
      r.game_state ≠ .finished) := by
  constructor
  · intro s s' hreach hstep code r r' hf hf' hr
    rcases step_find_spec (reachable_nodupKeys hreach) hstep code r' hf'
      with ⟨r₀, hf₀, he⟩ | ⟨hnone, _⟩ | hrac
    · rw [hf₀] at hf
      obtain rfl := Option.some.inj hf
      rw [he, hr]
    · rw [hnone] at hf
      cases hf
    · exact hrac
  · intro s hreach
    exact reachable_no_finished hreach

/-- Witness for C7: the table holding one racing room `"AAAA"` is
reachable (create, then host starts), and its phase is not
`finished`. -/
theorem phase_monotone_no_finished_witness :
    (⟨"h", [], GameState.racing⟩ : Room).game_state ≠ .finished := by
  have h₀ : ∃ i, ¬ alistMem (generate_room_code lettersW i)
      ([] : RoomTable) := ⟨0, by decide⟩
  have e₀ : fresh_code lettersW [] h₀ = "AAAA" := by
    unfold fresh_code
    have hz : Nat.find h₀ = 0 := (Nat.find_eq_zero h₀).mpr (by decide)
    rw [hz]
    decide
  have hs₁ : (create_room lettersW "h" [] h₀).1 =
      [("AAAA", ⟨"h", [], .waiting⟩)] := by
    show alistSet (fresh_code lettersW [] h₀)
      (⟨"h", [], .waiting⟩ : Room) [] = _
    rw [e₀]
    rfl
  have r1 : Reachable [("AAAA", (⟨"h", [], .waiting⟩ : Room))] := by
    have r0 := Reachable.step Reachable.init
      (Step.create lettersW "h" [] h₀)
    rwa [hs₁] at r0
  have hs₂ : (start_game "h" ⟨some "AAAA"⟩
      [("AAAA", (⟨"h", [], .waiting⟩ : Room))]).1 =
      [("AAAA", ⟨"h", [], .racing⟩)] := rfl
  have r2 : Reachable [("AAAA", (⟨"h", [], .racing⟩ : Room))] := by
    have r0 := Reachable.step r1
      (Step.start "h" ⟨some "AAAA"⟩ [("AAAA", ⟨"h", [], .waiting⟩)])
    rwa [hs₂] at r0
  exact phase_monotone_no_finished.2 _ r2 "AAAA" ⟨"h", [], .racing⟩ rfl

end Racer
